import Mathlib

/- Verification of the localization auditor's audit-results pipeline.

   The definitions below are a shallow embedding of the repository's
   TypeScript frontend (src/frontend/src/types/index.ts, the audit detail
   page, CreateAuditForm, AuditResults, ContentComparisonTable, and the
   proficiency-test polling loop).  The backend orchestrator (score
   aggregation, the blocked-state transitions, progress checkpoints) is not
   part of the repository sources; those definitions are modelled from the
   specification and are marked as such in their doc comments. -/

namespace LocAudit

/-- Audit lifecycle status, from the `AuditStatus` union in
src/frontend/src/types/index.ts. -/
inductive AuditStatus where
  | pending
  | scraping
  | analyzing
  | completed
  | failed
  | blocked
  deriving DecidableEq

/-- Audit mode, from the `AuditType` union (comparison | standalone |
proficiency). -/
inductive AuditType where
  | comparison
  | standalone
  | proficiency
  deriving DecidableEq

/-- Quality dimensions, from the `AuditDimension` union. -/
inductive AuditDimension where
  | CORRECTNESS
  | CULTURAL_RELEVANCE
  | INDUSTRY_EXPERTISE
  | FLUENCY
  | CONSISTENCY
  | COMPLETENESS
  | UI_UX
  | SEO
  | LANGUAGE_PROFICIENCY
  deriving DecidableEq

/-- Finding severity, from the `severity` field of `AuditFinding`. -/
inductive Severity where
  | high
  | medium
  | low
  deriving DecidableEq

/-- One finding, from the `AuditFinding` interface: a single record with
optional `original`, `localized` and `text` excerpt fields (the TypeScript
type has no discriminating tag on the finding itself). -/
structure AuditFinding where
  issue : String
  original : Option String := none
  localized : Option String := none
  text : Option String := none
  suggestion : Option String := none
  severity : Severity

/-- A good example attached to a dimension result (`GoodExample`). -/
structure GoodExample where
  description : String
  original : Option String := none
  localized : Option String := none

/-- One per-dimension result, from the `AuditResult` interface.  Scores are
JavaScript numbers; they are modelled as rationals. -/
structure AuditResult where
  id : Nat := 0
  dimension : AuditDimension
  score : ℚ
  findings : List AuditFinding := []
  good_examples : List GoodExample := []
  recommendations : List String := []

/-- The eight dimensions evaluated for a comparison audit, in declaration
order of the `AuditDimension` union. -/
def comparisonDimensions : List AuditDimension :=
  [AuditDimension.CORRECTNESS, AuditDimension.CULTURAL_RELEVANCE,
   AuditDimension.INDUSTRY_EXPERTISE, AuditDimension.FLUENCY,
   AuditDimension.CONSISTENCY, AuditDimension.COMPLETENESS,
   AuditDimension.UI_UX, AuditDimension.SEO]

/-- The results shown by the `AuditResults` view (src/unnamed/part_007):
for standalone audits any CONSISTENCY entry is filtered out, otherwise the
audit's results are shown as-is. -/
def filteredResults (t : AuditType) (results : List AuditResult) :
    List AuditResult :=
  if t = AuditType.standalone then
    results.filter (fun r => r.dimension ≠ AuditDimension.CONSISTENCY)
  else
    results

/-- Report ordering of dimension results
(src/frontend/src/components/audit/AuditResults.tsx:
`[...audit.results].sort((a, b) => a.score - b.score)`), ascending by
score. -/
def sortedResults (results : List AuditResult) : List AuditResult :=
  results.mergeSort (fun a b => a.score ≤ b.score)

/-- Mapping a dimension-projection over the CONSISTENCY filter commutes
with filtering the projected dimensions. -/
theorem map_dimension_filter (results : List AuditResult) :
    (results.filter
        (fun r => r.dimension ≠ AuditDimension.CONSISTENCY)).map
        (fun r => r.dimension)
      = (results.map (fun r => r.dimension)).filter
        (fun d => d ≠ AuditDimension.CONSISTENCY) := by
  induction results with
  | nil => rfl
  | cons r rs ih =>
    simp only [ne_eq, decide_not] at ih ⊢
    by_cases h : r.dimension = AuditDimension.CONSISTENCY <;>
      simp [h, ih]

/-- C2: a CONSISTENCY DimensionResult is present in the reported results iff
the audit's mode is not standalone; with one result per dimension of the
full eight-dimension evaluation, a standalone audit reports 7 dimension
results and a comparison audit reports 8. -/
theorem consistency_reported_iff_not_standalone
    (t : AuditType) (results : List AuditResult)
    (hmode : t = AuditType.comparison ∨ t = AuditType.standalone)
    (hfull : results.map (fun r => r.dimension) = comparisonDimensions) :
    (AuditDimension.CONSISTENCY ∈
        (filteredResults t results).map (fun r => r.dimension) ↔
      t ≠ AuditType.standalone) ∧
    (filteredResults t results).length
      = (if t = AuditType.standalone then 7 else 8) := by
  have hlen : results.length = 8 := by
    have h := congrArg List.length hfull
    simpa [comparisonDimensions] using h
  rcases hmode with h | h <;> subst h
  · constructor
    · simp [filteredResults, hfull, comparisonDimensions]
    · simp [filteredResults, hlen]
  · constructor
    · simp [filteredResults, map_dimension_filter, hfull,
        comparisonDimensions]
    · have hmap : (filteredResults AuditType.standalone results).length
          = ((results.map (fun r => r.dimension)).filter
              (fun d => d ≠ AuditDimension.CONSISTENCY)).length := by
        rw [filteredResults]
        simp only [if_pos rfl, ← map_dimension_filter, List.length_map,
          if_true, reduceIte]
      rw [hmap, hfull]
      simp [comparisonDimensions]

/-- Eight sample dimension results, one per comparison dimension. -/
def sampleResults8 : List AuditResult :=
  [{ dimension := AuditDimension.CORRECTNESS, score := 80 },
   { dimension := AuditDimension.CULTURAL_RELEVANCE, score := 75 },
   { dimension := AuditDimension.INDUSTRY_EXPERTISE, score := 90 },
   { dimension := AuditDimension.FLUENCY, score := 60 },
   { dimension := AuditDimension.CONSISTENCY, score := 85 },
   { dimension := AuditDimension.COMPLETENESS, score := 70 },
   { dimension := AuditDimension.UI_UX, score := 65 },
   { dimension := AuditDimension.SEO, score := 55 }]

/-- C2 witness: the theorem applied to a concrete comparison audit holding
one result per dimension. -/
theorem consistency_reported_iff_not_standalone_witness :
    (AuditDimension.CONSISTENCY ∈
        (filteredResults AuditType.comparison sampleResults8).map
          (fun r => r.dimension) ↔
      AuditType.comparison ≠ AuditType.standalone) ∧
    (filteredResults AuditType.comparison sampleResults8).length
      = (if AuditType.comparison = AuditType.standalone then 7 else 8) :=
  consistency_reported_iff_not_standalone AuditType.comparison sampleResults8
    (Or.inl rfl) (by rfl)

/-- C5: the report lists dimension results sorted ascending by score; the
displayed sequence is a permutation of the audit's results in which each
element's score is at most the next element's score. -/
theorem report_sorted_ascending (results : List AuditResult)
    (_hne : results ≠ []) :
    (sortedResults results).Perm results ∧
    List.Chain' (fun a b => a.score ≤ b.score) (sortedResults results) := by
  refine ⟨List.mergeSort_perm results _, ?_⟩
  have htrans : ∀ a b c : AuditResult,
      decide (a.score ≤ b.score) = true →
      decide (b.score ≤ c.score) = true →
      decide (a.score ≤ c.score) = true := by
    intro a b c hab hbc
    simp only [decide_eq_true_eq] at *
    exact le_trans hab hbc
  have htot : ∀ a b : AuditResult,
      (decide (a.score ≤ b.score) || decide (b.score ≤ a.score)) = true := by
    intro a b
    simpa using le_total a.score b.score
  have hp := List.sorted_mergeSort htrans htot results
  have hpw : List.Pairwise (fun a b : AuditResult => a.score ≤ b.score)
      (sortedResults results) := by
    refine hp.imp ?_
    intro a b h
    simpa using h
  exact hpw.chain'

/-- C5 witness: the theorem applied to a concrete non-empty result list. -/
theorem report_sorted_ascending_witness :
    (sortedResults sampleResults8).Perm sampleResults8 ∧
    List.Chain' (fun a b => a.score ≤ b.score)
      (sortedResults sampleResults8) :=
  report_sorted_ascending sampleResults8 (by simp [sampleResults8])

/-- The orchestrator's view of an audit.  The status, blocked_reason,
results and overall_score fields mirror the `Audit` interface in
src/frontend/src/types/index.ts; the transitions on it are modelled from
the spec because the backend is not part of the repository sources. -/
structure OrchestratorAudit where
  status : AuditStatus
  audit_type : AuditType
  blocked_reason : Option String := none
  progress_step : Option Nat := none
  progress_total : Option Nat := none
  results : List AuditResult := []
  overall_score : Option ℤ := none

/-- Modelled from the spec: the Score Aggregator (backend, absent from the
repository sources) computes the overall score as the arithmetic mean of
all produced dimension scores, rounded to the integer reporting
precision, with uniform weight. -/
def overallScoreOfScores (scores : List ℚ) : ℤ :=
  round (scores.sum / (scores.length : ℚ))

/-- Modelled from the spec: the orchestrator's completion step (backend,
absent from the repository sources) stores the dimension results, sets the
aggregated overall score and marks the audit completed in one write. -/
def completeAudit (a : OrchestratorAudit) (results : List AuditResult) :
    OrchestratorAudit :=
  { a with
    status := AuditStatus.completed
    results := results
    overall_score :=
      some (overallScoreOfScores (results.map (fun r => r.score))) }

/-- C1: for a completed audit the overall score is the arithmetic mean of
the produced dimension scores, rounded; in particular with 8 dimension
scores it is round(mean of the 8 scores). -/
theorem overall_score_is_rounded_mean
    (a : OrchestratorAudit) (results : List AuditResult)
    (h8 : results.length = 8) :
    (completeAudit a results).status = AuditStatus.completed ∧
    (completeAudit a results).overall_score
      = some (round ((results.map (fun r => r.score)).sum /
          ((results.length : ℚ)))) ∧
    (completeAudit a results).overall_score
      = some (round ((results.map (fun r => r.score)).sum / (8 : ℚ))) := by
  refine ⟨rfl, by simp [completeAudit, overallScoreOfScores], ?_⟩
  simp [completeAudit, overallScoreOfScores, h8]

/-- A pending comparison audit used as a concrete input. -/
def samplePendingAudit : OrchestratorAudit :=
  { status := AuditStatus.pending, audit_type := AuditType.comparison }

/-- C1 witness: the theorem applied to a concrete audit with 8 results. -/
theorem overall_score_is_rounded_mean_witness :
    sampleResults8.length = 8 ∧
    (completeAudit samplePendingAudit sampleResults8).overall_score
      = some (round ((sampleResults8.map (fun r => r.score)).sum /
          (8 : ℚ))) :=
  ⟨rfl,
    (overall_score_is_rounded_mean samplePendingAudit sampleResults8
      rfl).2.2⟩

/-- Modelled from the spec: `retry(auditId)` (backend, absent from the
repository sources) is only valid from `blocked`; it re-invokes the
Fetcher with a fresh attempt, and on a renewed block it stays `blocked`
with an updated blocked-reason; from any other state it errors without
touching the audit. -/
def retryAudit (a : OrchestratorAudit) (blockedAgain : Bool)
    (newReason : String) : Except String OrchestratorAudit :=
  if a.status = AuditStatus.blocked then
    if blockedAgain then
      Except.ok { a with blocked_reason := some newReason }
    else
      Except.ok { a with status := AuditStatus.scraping }
  else
    Except.error "retry is only valid from blocked"

/-- Modelled from the spec: `proceed(auditId)` (backend, absent from the
repository sources) is only valid from `blocked`; it forces progression
into `analyzing` using the captured snapshot; from any other state it
errors without touching the audit. -/
def proceedAudit (a : OrchestratorAudit) : Except String OrchestratorAudit :=
  if a.status = AuditStatus.blocked then
    Except.ok { a with status := AuditStatus.analyzing }
  else
    Except.error "proceed is only valid from blocked"

/-- The audit detail page (src/frontend/src/app/audits/[id]/page.tsx)
renders the Retry Audit button, which issues `retryBlockedAudit`, only
inside the panel guarded by `audit.status === "blocked"`. -/
def retryActionAvailable (s : AuditStatus) : Bool :=
  s == AuditStatus.blocked

/-- The audit detail page renders the Proceed Anyway button, which issues
`proceedBlockedAudit`, only inside the panel guarded by
`audit.status === "blocked"`. -/
def proceedActionAvailable (s : AuditStatus) : Bool :=
  s == AuditStatus.blocked

/-- C3: retry and proceed are valid only from `blocked` — from any other
status both are rejected as errors without producing a new audit state —
and the client only offers the retry/proceed operations when the observed
status is `blocked`. -/
theorem retry_proceed_only_from_blocked
    (a : OrchestratorAudit) (blockedAgain : Bool) (newReason : String)
    (h : a.status ≠ AuditStatus.blocked) :
    retryAudit a blockedAgain newReason
      = Except.error "retry is only valid from blocked" ∧
    proceedAudit a = Except.error "proceed is only valid from blocked" ∧
    (∀ s : AuditStatus, retryActionAvailable s = true →
      s = AuditStatus.blocked) ∧
    (∀ s : AuditStatus, proceedActionAvailable s = true →
      s = AuditStatus.blocked) := by
  refine ⟨?_, ?_, ?_, ?_⟩
  · simp [retryAudit, h]
  · simp [proceedAudit, h]
  · intro s hs
    simpa [retryActionAvailable] using hs
  · intro s hs
    simpa [proceedActionAvailable] using hs

/-- C3 witness: the theorem applied to a concrete pending audit. -/
theorem retry_proceed_only_from_blocked_witness :
    samplePendingAudit.status ≠ AuditStatus.blocked ∧
    retryAudit samplePendingAudit false ""
      = Except.error "retry is only valid from blocked" ∧
    proceedAudit samplePendingAudit
      = Except.error "proceed is only valid from blocked" :=
  ⟨by decide,
    (retry_proceed_only_from_blocked samplePendingAudit false ""
      (by decide)).1,
    (retry_proceed_only_from_blocked samplePendingAudit false ""
      (by decide)).2.1⟩

/-- Checklist step state on the audit detail page: for
`currentStep = audit.progress_step || 0`, a step is completed when
`currentStep > step`, current when `currentStep === step`, else pending. -/
inductive StepState where
  | completed
  | current
  | pending
  deriving DecidableEq

/-- The deterministic checklist marking from the audit detail page
(src/frontend/src/app/audits/[id]/page.tsx). -/
def stepState (progress_step : Option Nat) (step : Nat) : StepState :=
  let currentStep := progress_step.getD 0
  if currentStep > step then StepState.completed
  else if currentStep = step then StepState.current
  else StepState.pending

/-- The four checklist steps rendered by the audit detail page, with the
step-3 label depending on the audit type. -/
def checklistSteps (t : AuditType) : List (Nat × String) :=
  [(1, "Initializing audit"),
   (2, "Loading glossary terms"),
   (3, if t = AuditType.standalone then
         "Running AI agent for back-translation assessment"
       else
         "Running AI agent for content comparison"),
   (4, "Saving audit results")]

/-- A `(step, totalSteps, label)` progress tuple. -/
structure ProgressCheckpoint where
  step : Nat
  totalSteps : Nat
  label : String

/-- Modelled from the spec: the orchestrator (backend, absent from the
repository sources) exposes `(step, totalSteps, label)` tuples at four
canonical checkpoints, in order: initializing, glossary resolution,
dimension evaluation (labeled distinctly for comparison vs. standalone),
and persisting results. -/
def orchestratorCheckpoints (t : AuditType) : List ProgressCheckpoint :=
  [⟨1, 4, "Initializing audit"⟩,
   ⟨2, 4, "Loading glossary terms"⟩,
   ⟨3, 4, if t = AuditType.standalone then
        "Running AI agent for back-translation assessment"
      else
        "Running AI agent for content comparison"⟩,
   ⟨4, 4, "Saving audit results"⟩]

/-- C6: progress is reported at exactly four canonical checkpoints in
order, the step-3 label differs between comparison and standalone audits,
and the client checklist marks each step completed, current or pending as
a deterministic function of the persisted progress_step. -/
theorem progress_four_checkpoints (t : AuditType) (p : Nat) :
    ((orchestratorCheckpoints t).map (fun c => c.step) = [1, 2, 3, 4] ∧
      ∀ c ∈ orchestratorCheckpoints t, c.totalSteps = 4) ∧
    ((orchestratorCheckpoints AuditType.standalone)[2]?.map
        (fun c => c.label)
      ≠ (orchestratorCheckpoints AuditType.comparison)[2]?.map
        (fun c => c.label)) ∧
    ((checklistSteps t).map Prod.fst = [1, 2, 3, 4]) ∧
    ((checklistSteps AuditType.standalone).map Prod.snd
      ≠ (checklistSteps AuditType.comparison).map Prod.snd) ∧
    (∀ step : Nat,
      (stepState (some p) step = StepState.completed ↔ p > step) ∧
      (stepState (some p) step = StepState.current ↔ p = step) ∧
      (stepState (some p) step = StepState.pending ↔ p < step)) := by
  refine ⟨⟨?_, ?_⟩, ?_, ?_, ?_, ?_⟩
  · cases t <;> rfl
  · cases t <;> simp [orchestratorCheckpoints]
  · decide
  · cases t <;> rfl
  · decide
  · intro step
    simp only [stepState, Option.getD_some]
    refine ⟨?_, ?_, ?_⟩ <;> split_ifs with h1 h2 <;> simp_all <;> omega

/-- C6 witness: the theorem applied to a concrete standalone audit at
progress step 2. -/
theorem progress_four_checkpoints_witness :
    (orchestratorCheckpoints AuditType.standalone).map (fun c => c.step)
      = [1, 2, 3, 4] ∧
    (stepState (some 2) 1 = StepState.completed ↔ 2 > 1) :=
  ⟨(progress_four_checkpoints AuditType.standalone 2).1.1,
    ((progress_four_checkpoints AuditType.standalone 2).2.2.2.2 1).1⟩

/-- Image label, from the `ImageLabel` union (original | localized). -/
inductive ImageLabel where
  | original
  | localized
  deriving DecidableEq

/-- An uploaded image as held in the CreateAuditForm state. -/
structure UploadedImage where
  label : ImageLabel
  filename : String := ""

/-- The operations CreateAuditForm performs on its uploaded-image state. -/
inductive ImageOp where
  | add (img : UploadedImage)
  | setLabel (i : Nat) (l : ImageLabel)
  | remove (i : Nat)

/-- The addImageFile updater from CreateAuditForm: the state updater refuses to grow
past 3 images (`if (prev.length >= 3) return prev`), otherwise appends. -/
def addImageFile (prev : List UploadedImage) (img : UploadedImage) :
    List UploadedImage :=
  if prev.length ≥ 3 then prev else prev ++ [img]

/-- One state transition of the uploaded-image list: `addImageFile`,
`updateImageLabel` (maps the i-th entry to the new label), or
`removeImage` (filters out index i). -/
def applyOp (imgs : List UploadedImage) : ImageOp → List UploadedImage
  | ImageOp.add img => addImageFile imgs img
  | ImageOp.setLabel i l =>
      imgs.mapIdx (fun j x => if j = i then { x with label := l } else x)
  | ImageOp.remove i => imgs.eraseIdx i

/-- The uploaded-image list reached by a sequence of form operations,
starting from the empty initial state. -/
def runOps (ops : List ImageOp) : List UploadedImage :=
  ops.foldl applyOp []

/-- Whether some uploaded image carries the given label
(`uploadedImages.some((img) => img.label === ...)`). -/
def hasLabel (l : ImageLabel) (imgs : List UploadedImage) : Bool :=
  imgs.any (fun img => img.label == l)

/-- The pre-creation validation in CreateAuditForm's `handleSubmit` for
image_upload mode, with the checks in source order. -/
def validateImageSubmission (t : AuditType) (imgs : List UploadedImage) :
    Except String Unit :=
  if imgs.length = 0 then
    Except.error "Please upload at least one image"
  else if t = AuditType.comparison ∧
      (hasLabel ImageLabel.original imgs = false ∨
        hasLabel ImageLabel.localized imgs = false) then
    Except.error
      "Comparison audits require at least one original and one localized image"
  else if t = AuditType.standalone ∧
      hasLabel ImageLabel.localized imgs = false then
    Except.error "Standalone audits require at least one localized image"
  else
    Except.ok ()

/-- The create request issued by a successful image_upload submission. -/
structure CreateAuditRequest where
  audit_type : AuditType
  images : List UploadedImage

/-- The handleSubmit path for image_upload mode: the create request is issued via
`api.createAuditWithImages` only after validation passes; a thrown
validation error prevents any create request. -/
def submitImages (t : AuditType) (imgs : List UploadedImage) :
    Except String CreateAuditRequest :=
  match validateImageSubmission t imgs with
  | Except.error e => Except.error e
  | Except.ok _ => Except.ok { audit_type := t, images := imgs }

/-- Every single form operation preserves the 3-image bound. -/
theorem length_applyOp_le (imgs : List UploadedImage) (op : ImageOp)
    (h : imgs.length ≤ 3) : (applyOp imgs op).length ≤ 3 := by
  cases op with
  | add img =>
    simp only [applyOp, addImageFile]
    split
    · exact h
    · next h3 =>
      simp only [List.length_append, List.length_cons, List.length_nil]
      omega
  | setLabel i l =>
    simpa [applyOp] using h
  | remove i =>
    have hle : (imgs.eraseIdx i).length ≤ imgs.length := by
      rw [List.length_eraseIdx]
      split <;> omega
    simpa [applyOp] using le_trans hle h

/-- Any sequence of form operations keeps the image list at ≤ 3 images. -/
theorem length_foldl_applyOp_le (ops : List ImageOp)
    (init : List UploadedImage) (h : init.length ≤ 3) :
    (ops.foldl applyOp init).length ≤ 3 := by
  induction ops generalizing init with
  | nil => exact h
  | cons op rest ih => exact ih _ (length_applyOp_le _ _ h)

/-- Validation passes exactly when at least one image is supplied, one of
them is localized, and — for comparison mode — one of them is original. -/
theorem validateImageSubmission_ok_iff (t : AuditType)
    (imgs : List UploadedImage)
    (ht : t = AuditType.comparison ∨ t = AuditType.standalone) :
    validateImageSubmission t imgs = Except.ok () ↔
      (1 ≤ imgs.length ∧
        hasLabel ImageLabel.localized imgs = true ∧
        (t = AuditType.comparison →
          hasLabel ImageLabel.original imgs = true)) := by
  rcases ht with h | h <;> subst h <;>
    unfold validateImageSubmission <;>
    by_cases h0 : imgs.length = 0 <;>
    by_cases ho : hasLabel ImageLabel.original imgs = true <;>
    by_cases hl : hasLabel ImageLabel.localized imgs = true <;>
    simp [h0, ho, hl] <;>
    omega

/-- A create request is issued exactly when validation passes. -/
theorem submitImages_ok_iff (t : AuditType) (imgs : List UploadedImage) :
    (∃ req, submitImages t imgs = Except.ok req) ↔
      validateImageSubmission t imgs = Except.ok () := by
  unfold submitImages
  cases h : validateImageSubmission t imgs with
  | error e => simp
  | ok u => cases u; simp

/-- When validation does not pass, submission surfaces an error and no
create request is issued. -/
theorem submitImages_error_of_not_ok (t : AuditType)
    (imgs : List UploadedImage)
    (h : validateImageSubmission t imgs ≠ Except.ok ()) :
    ∃ e, submitImages t imgs = Except.error e := by
  unfold submitImages
  cases hv : validateImageSubmission t imgs with
  | error e => exact ⟨e, rfl⟩
  | ok u => cases u; exact absurd hv h

/-- C4: every image set reachable by the form's add operations has at most
3 images, a submission succeeds (issuing a create request) exactly when
1–3 labeled images with at least one localized image — and for comparison
mode at least one original image — are supplied, and a violating
submission fails with an error before any create request is issued. -/
theorem image_submission_validation (t : AuditType) (ops : List ImageOp)
    (ht : t = AuditType.comparison ∨ t = AuditType.standalone) :
    (runOps ops).length ≤ 3 ∧
    ((∃ req, submitImages t (runOps ops) = Except.ok req) ↔
      (1 ≤ (runOps ops).length ∧ (runOps ops).length ≤ 3 ∧
        hasLabel ImageLabel.localized (runOps ops) = true ∧
        (t = AuditType.comparison →
          hasLabel ImageLabel.original (runOps ops) = true))) ∧
    (¬ (1 ≤ (runOps ops).length ∧
        hasLabel ImageLabel.localized (runOps ops) = true ∧
        (t = AuditType.comparison →
          hasLabel ImageLabel.original (runOps ops) = true)) →
      ∃ e, submitImages t (runOps ops) = Except.error e) := by
  have hbound : (runOps ops).length ≤ 3 :=
    length_foldl_applyOp_le ops [] (by simp)
  have hval := validateImageSubmission_ok_iff t (runOps ops) ht
  have hsub := submitImages_ok_iff t (runOps ops)
  refine ⟨hbound, ?_, ?_⟩
  · rw [hsub, hval]
    constructor
    · rintro ⟨h1, hl, hc⟩
      exact ⟨h1, hbound, hl, hc⟩
    · rintro ⟨h1, _, hl, hc⟩
      exact ⟨h1, hl, hc⟩
  · intro hviol
    apply submitImages_error_of_not_ok
    intro heq
    exact hviol (hval.mp heq)

/-- A localized-labeled uploaded image used as a concrete input. -/
def sampleLocalizedImage : UploadedImage :=
  { label := ImageLabel.localized, filename := "screenshot.png" }

/-- C4 witness: the theorem applied to a standalone submission reached by
one add operation. -/
theorem image_submission_validation_witness :
    (AuditType.standalone = AuditType.comparison ∨
      AuditType.standalone = AuditType.standalone) ∧
    (runOps [ImageOp.add sampleLocalizedImage]).length ≤ 3 :=
  ⟨Or.inr rfl,
    (image_submission_validation AuditType.standalone
      [ImageOp.add sampleLocalizedImage] (Or.inr rfl)).1⟩

/-- JavaScript truthiness of an optional string: `undefined` and the empty
string are falsy. -/
def strTruthy : Option String → Bool
  | some s => s ≠ ""
  | none => false

/-- The JavaScript `a || b` on optional strings: `b` when `a` is absent or
empty, otherwise `a`. -/
def jsOrStr (a b : Option String) : Option String :=
  if strTruthy a then a else b

/-- IssueCard (src/unnamed/part_007) chooses the displayed excerpt from
the audit-level type: `finding.text || finding.localized` for standalone
audits, `finding.localized || finding.original` otherwise. -/
def currentText (t : AuditType) (f : AuditFinding) : Option String :=
  if t = AuditType.standalone then jsOrStr f.text f.localized
  else jsOrStr f.localized f.original

/-- A standalone finding with no `text` excerpt but a `localized` one. -/
def sampleStandaloneFinding : AuditFinding :=
  { issue := "Untranslated heading"
    localized := some "Welcome back"
    severity := Severity.high }

/-- C7 counterexample: a standalone-audit Finding whose `text` field is
absent has its excerpt drawn from the `localized` field, so the excerpt is
not always in a `text` field, and the selection is keyed off the
audit-level type over one record with optional fields, not a per-finding
kind tag. -/
theorem standalone_excerpt_falls_back_to_localized :
    sampleStandaloneFinding.text = none ∧
    sampleStandaloneFinding.localized = some "Welcome back" ∧
    currentText AuditType.standalone sampleStandaloneFinding
      = some "Welcome back" :=
  ⟨rfl, rfl, rfl⟩

/-- C7 amended: `AuditFinding` is a single record with optional
`original`/`localized`/`text` fields and no kind tag; the renderer
discriminates on the audit-level audit_type: for standalone audits the
excerpt is `text` when non-empty, falling back to `localized`; otherwise
it is `localized` when non-empty, falling back to `original`. -/
theorem finding_excerpt_selection (t : AuditType) (f : AuditFinding) :
    (t = AuditType.standalone → strTruthy f.text = true →
      currentText t f = f.text) ∧
    (t = AuditType.standalone → strTruthy f.text = false →
      currentText t f = f.localized) ∧
    (t ≠ AuditType.standalone → strTruthy f.localized = true →
      currentText t f = f.localized) ∧
    (t ≠ AuditType.standalone → strTruthy f.localized = false →
      currentText t f = f.original) := by
  refine ⟨?_, ?_, ?_, ?_⟩ <;>
    intro h1 h2 <;>
    simp [currentText, jsOrStr, h1, h2]

/-- C7 amended witness: the amended theorem applied to a concrete
standalone finding with an absent text field. -/
theorem finding_excerpt_selection_witness :
    (AuditType.standalone = AuditType.standalone) ∧
    strTruthy sampleStandaloneFinding.text = false ∧
    currentText AuditType.standalone sampleStandaloneFinding
      = sampleStandaloneFinding.localized :=
  ⟨rfl, rfl,
    (finding_excerpt_selection AuditType.standalone
      sampleStandaloneFinding).2.1 rfl rfl⟩

/-- One aligned content element, from the `ContentPairItem` interface:
both sides are optional. -/
structure ContentPairItem where
  original : Option String := none
  localized : Option String := none
  level : Option Nat := none
  index : Option Nat := none

/-- A rendered comparison cell: either an extracted value or the N/A
placeholder. -/
inductive Cell where
  | value (s : String)
  | na
  deriving DecidableEq

/-- How `ComparisonRow` renders one side: the extracted string when truthy,
otherwise the italic N/A placeholder (`original || <em>N/A</em>`). -/
def renderCell (v : Option String) : Cell :=
  match v with
  | some s => if s = "" then Cell.na else Cell.value s
  | none => Cell.na

/-- Whether an element is shown at all: `ComparisonRow` returns null when
both sides are falsy (`if (!original && !localized) return null`). -/
def presentItem (item : ContentPairItem) : Bool :=
  strTruthy item.original || strTruthy item.localized

/-- The ComparisonRow component from ContentComparisonTable.tsx: nothing for an element
absent on both sides, otherwise a pair of rendered cells. -/
def comparisonRow (item : ContentPairItem) : Option (Cell × Cell) :=
  if presentItem item = false then none
  else some (renderCell item.original, renderCell item.localized)

/-- The per-class count from ContentComparisonTable.tsx, e.g.
`contentPairs.headings?.filter(h => h.original || h.localized).length`. -/
def classCount (items : List ContentPairItem) : Nat :=
  (items.filter presentItem).length

/-- C8: ContentPairs never synthesizes a value for a missing side — an
absent (or empty) side renders as N/A, a rendered value is exactly the
extracted string, and an element absent on both sides is omitted from
display and from the per-class counts. -/
theorem content_pairs_never_synthesized (item : ContentPairItem)
    (before after : List ContentPairItem) :
    (item.original = none →
      ∀ a b, comparisonRow item = some (a, b) → a = Cell.na) ∧
    (item.localized = none →
      ∀ a b, comparisonRow item = some (a, b) → b = Cell.na) ∧
    (∀ a b s, comparisonRow item = some (a, b) → a = Cell.value s →
      item.original = some s) ∧
    (∀ a b s, comparisonRow item = some (a, b) → b = Cell.value s →
      item.localized = some s) ∧
    (presentItem item = false →
      comparisonRow item = none ∧
      classCount (before ++ item :: after) = classCount (before ++ after)) := by
  refine ⟨?_, ?_, ?_, ?_, ?_⟩
  · intro h a b hrow
    rw [comparisonRow] at hrow
    split at hrow
    · exact absurd hrow (by simp)
    · cases hrow
      simp [renderCell, h]
  · intro h a b hrow
    rw [comparisonRow] at hrow
    split at hrow
    · exact absurd hrow (by simp)
    · cases hrow
      simp [renderCell, h]
  · intro a b s hrow hval
    rw [comparisonRow] at hrow
    split at hrow
    · exact absurd hrow (by simp)
    · cases hrow
      cases horig : item.original with
      | none =>
        rw [horig] at hval
        simp [renderCell] at hval
      | some v =>
        rw [horig] at hval
        by_cases hv : v = ""
        · simp [renderCell, hv] at hval
        · simp [renderCell, hv] at hval
          rw [hval]
  · intro a b s hrow hval
    rw [comparisonRow] at hrow
    split at hrow
    · exact absurd hrow (by simp)
    · cases hrow
      cases hloc : item.localized with
      | none =>
        rw [hloc] at hval
        simp [renderCell] at hval
      | some v =>
        rw [hloc] at hval
        by_cases hv : v = ""
        · simp [renderCell, hv] at hval
        · simp [renderCell, hv] at hval
          rw [hval]
  · intro h
    refine ⟨by simp [comparisonRow, h], ?_⟩
    simp [classCount, List.filter_append, h]

/-- An element with no extraction on either side. -/
def sampleEmptyItem : ContentPairItem := {}

/-- C8 witness: the theorem applied to a concrete element that is absent
on both sides, inside a concrete list. -/
theorem content_pairs_never_synthesized_witness :
    presentItem sampleEmptyItem = false ∧
    comparisonRow sampleEmptyItem = none ∧
    classCount ([{ original := some "Home" }] ++ sampleEmptyItem :: [])
      = classCount ([{ original := some "Home" }] ++ []) :=
  ⟨rfl,
    ((content_pairs_never_synthesized sampleEmptyItem
      [{ original := some "Home" }] []).2.2.2.2 rfl).1,
    ((content_pairs_never_synthesized sampleEmptyItem
      [{ original := some "Home" }] []).2.2.2.2 rfl).2⟩

/-- The audit detail page re-reads the audit only while
`["pending", "scraping", "analyzing"].includes(audit.status)`. -/
def detailPagePolls (s : AuditStatus) : Bool :=
  ([AuditStatus.pending, AuditStatus.scraping,
    AuditStatus.analyzing] : List AuditStatus).contains s

/-- The fixed detail-page polling interval
(`setInterval(loadAudit, 2000)`). -/
def detailPollIntervalMs : Nat := 2000

/-- What one iteration of a polling loop does next. -/
inductive PollAction where
  | stop
  | wait (ms : Nat)
  deriving DecidableEq

/-- One iteration of `pollForResult` (src/unnamed/part_008): the loop
returns when the observed status is completed or failed, and otherwise
waits 3000 ms before the next attempt. -/
def proficiencyPollStep (s : AuditStatus) : PollAction :=
  if s = AuditStatus.completed ∨ s = AuditStatus.failed then
    PollAction.stop
  else
    PollAction.wait 3000

/-- The attempt bound of `pollForResult` (`const maxAttempts = 60`). -/
def proficiencyMaxAttempts : Nat := 60

/-- C9 counterexample: when the observed status is `blocked`, the
proficiency-test poll does not stop — it waits 3 s and polls again — so
polling does not stop on every completed/failed/blocked status as the
claim states. -/
theorem proficiency_poll_continues_when_blocked :
    proficiencyPollStep AuditStatus.blocked = PollAction.wait 3000 ∧
    proficiencyPollStep AuditStatus.blocked ≠ PollAction.stop :=
  ⟨rfl, by decide⟩

/-- C9 amended: the detail page re-reads the audit at a fixed 2 s interval
exactly while the status is pending, scraping or analyzing (so its polling
stops at completed, failed or blocked); the proficiency-test poll re-reads
at a 3 s interval under a 60-attempt bound and stops only at completed or
failed — a blocked status keeps it polling. -/
theorem polling_stop_conditions (s : AuditStatus) :
    (detailPagePolls s = true ↔
      (s = AuditStatus.pending ∨ s = AuditStatus.scraping ∨
        s = AuditStatus.analyzing)) ∧
    (detailPagePolls s = false ↔
      (s = AuditStatus.completed ∨ s = AuditStatus.failed ∨
        s = AuditStatus.blocked)) ∧
    (proficiencyPollStep s = PollAction.stop ↔
      (s = AuditStatus.completed ∨ s = AuditStatus.failed)) ∧
    (proficiencyPollStep s ≠ PollAction.stop →
      proficiencyPollStep s = PollAction.wait 3000) ∧
    detailPollIntervalMs = 2000 ∧ proficiencyMaxAttempts = 60 := by
  cases s <;> decide

/-- C9 amended witness: the amended theorem applied to concrete statuses:
an analyzing audit is re-read by the detail page, and a completed audit
stops the proficiency poll. -/
theorem polling_stop_conditions_witness :
    detailPagePolls AuditStatus.analyzing = true ∧
    proficiencyPollStep AuditStatus.completed = PollAction.stop :=
  ⟨(polling_stop_conditions AuditStatus.analyzing).1.mpr
      (Or.inr (Or.inr rfl)),
    (polling_stop_conditions AuditStatus.completed).2.2.1.mpr
      (Or.inl rfl)⟩

/-- A rendered fragment of `HighlightedText`: plain text, or a marked
(highlighted) copy of the highlight string. -/
inductive Fragment where
  | plain (s : List Char)
  | marked (s : List Char)
  deriving DecidableEq

/-- The characters of a rendered fragment. -/
def fragChars : Fragment → List Char
  | Fragment.plain s => s
  | Fragment.marked s => s

/-- Concatenation of the rendered fragments. -/
def joinFrags : List Fragment → List Char
  | [] => []
  | f :: fs => fragChars f ++ joinFrags fs

/-- JavaScript `fullText.includes(sep)`: substring containment. -/
def jsIncludes (sep : List Char) : List Char → Bool
  | [] => sep.isPrefixOf []
  | c :: rest => sep.isPrefixOf (c :: rest) || jsIncludes sep rest

/-- JavaScript `fullText.split(sep)` for a non-empty separator: split on
each leftmost non-overlapping occurrence. -/
def jsSplit (sep : List Char) (s : List Char) : List (List Char) :=
  match s with
  | [] => [[]]
  | c :: rest =>
    if h : sep ≠ [] ∧ sep.isPrefixOf (c :: rest) = true then
      [] :: jsSplit sep (List.drop sep.length (c :: rest))
    else
      match jsSplit sep rest with
      | [] => [[c]]
      | t :: ts => (c :: t) :: ts
termination_by s.length
decreasing_by
  · have hlen : 1 ≤ sep.length := by
      cases sep with
      | nil => exact absurd rfl h.1
      | cons x xs => simp
    simp only [List.length_drop, List.length_cons]
    omega
  · simp

/-- HighlightedText interleaves the split parts with marked copies of the
highlight string: a mark follows every part except the last. -/
def interleaveMarks (sep : List Char) : List (List Char) → List Fragment
  | [] => []
  | [p] => [Fragment.plain p]
  | p :: ps => Fragment.plain p :: Fragment.marked sep :: interleaveMarks sep ps

/-- HighlightedText (src/unnamed/part_007): the full text unchanged when
the highlight is empty or does not occur, otherwise the split parts
interleaved with marked copies of the highlight. -/
def renderHighlighted (fullText highlightText : List Char) :
    List Fragment :=
  if highlightText = [] ∨ jsIncludes highlightText fullText = false then
    [Fragment.plain fullText]
  else
    interleaveMarks highlightText (jsSplit highlightText fullText)

/-- A true `isPrefixOf` exposes the suffix after the prefix. -/
theorem exists_append_of_isPrefixOf {l₁ l₂ : List Char}
    (h : l₁.isPrefixOf l₂ = true) : ∃ t, l₂ = l₁ ++ t := by
  induction l₁ generalizing l₂ with
  | nil => exact ⟨l₂, rfl⟩
  | cons a as ih =>
    cases l₂ with
    | nil => simp [List.isPrefixOf] at h
    | cons b bs =>
      simp only [List.isPrefixOf, Bool.and_eq_true, beq_iff_eq] at h
      obtain ⟨rfl, h2⟩ := h
      obtain ⟨t, rfl⟩ := ih h2
      exact ⟨t, rfl⟩

/-- jsSplit always produces at least one part. -/
theorem jsSplit_ne_nil (sep s : List Char) : jsSplit sep s ≠ [] := by
  cases s with
  | nil => simp [jsSplit]
  | cons c rest =>
    rw [jsSplit]
    split
    · simp
    · split <;> simp

/-- Re-joining the split parts with the separator between them recovers
the original string: the split/interleave round trip. -/
theorem joinFrags_interleave_jsSplit (sep : List Char) (s : List Char)
    (hsep : sep ≠ []) :
    joinFrags (interleaveMarks sep (jsSplit sep s)) = s := by
  induction s using jsSplit.induct sep with
  | case1 => simp [jsSplit, interleaveMarks, joinFrags, fragChars]
  | case2 c rest h ih =>
    rw [jsSplit, dif_pos h]
    obtain ⟨tail, htail⟩ := exists_append_of_isPrefixOf h.2
    cases hq : jsSplit sep (List.drop sep.length (c :: rest)) with
    | nil => exact absurd hq (jsSplit_ne_nil sep _)
    | cons q qs =>
      rw [hq] at ih
      simp only [interleaveMarks, joinFrags, fragChars, List.nil_append]
      rw [ih, htail, List.drop_left]
  | case3 c rest h hq ih =>
    exact absurd hq (jsSplit_ne_nil sep rest)
  | case4 c rest h t ts hq ih =>
    rw [jsSplit, dif_neg h, hq]
    rw [hq] at ih
    cases ts with
    | nil =>
      simp only [interleaveMarks, joinFrags, fragChars,
        List.append_nil] at ih ⊢
      rw [ih]
    | cons u us =>
      simp only [interleaveMarks, joinFrags, fragChars] at ih ⊢
      rw [List.cons_append, ih]

/-- C10: when the highlight string is non-empty and occurs in the full
text, `HighlightedText` renders the split parts interleaved with marked
copies of the highlight and the concatenation of the rendered fragments is
exactly the full text; when the highlight is empty or does not occur, the
full text is rendered unchanged.  In every case the rendered characters
equal the full text. -/
theorem highlighted_text_round_trip (fullText highlightText : List Char) :
    joinFrags (renderHighlighted fullText highlightText) = fullText ∧
    (highlightText ≠ [] → jsIncludes highlightText fullText = true →
      renderHighlighted fullText highlightText
        = interleaveMarks highlightText (jsSplit highlightText fullText)) ∧
    ((highlightText = [] ∨ jsIncludes highlightText fullText = false) →
      renderHighlighted fullText highlightText
        = [Fragment.plain fullText]) := by
  refine ⟨?_, ?_, ?_⟩
  · rw [renderHighlighted]
    split
    · simp [joinFrags, fragChars]
    · next hcond =>
      push_neg at hcond
      exact joinFrags_interleave_jsSplit highlightText fullText hcond.1
  · intro hne hocc
    rw [renderHighlighted, if_neg]
    simp [hne, hocc]
  · intro hcond
    rw [renderHighlighted, if_pos hcond]

/-- C10 witness: the theorem applied to the concrete full text "abcb" and
highlight "b", which occurs in it. -/
theorem highlighted_text_round_trip_witness :
    ((['b'] : List Char) ≠ []) ∧
    jsIncludes ['b'] ['a', 'b', 'c', 'b'] = true ∧
    renderHighlighted ['a', 'b', 'c', 'b'] ['b']
      = interleaveMarks ['b'] (jsSplit ['b'] ['a', 'b', 'c', 'b']) :=
  ⟨by decide, by decide,
    (highlighted_text_round_trip ['a', 'b', 'c', 'b'] ['b']).2.1
      (by decide) (by decide)⟩

end LocAudit
